import Mathlib

/-!
Verification of the data-preparation pipeline of the cnn-deblur repository.

The embedding models images as rectangular lists of lists of pixels
(`Image`), datasets as lists, and the TensorFlow dataset operations used in
`datasets/dataset_utils.py` (patch extraction, reconstruction, paired random
flips, the seeded buffered shuffle, train/validation splitting, batching) as
pure Lean functions.  `utils/preproc_cifar.py`'s concurrent corpus
construction is modelled with an explicit thread-interleaving schedule.
-/

/-- An image is a list of rows of pixels; the pixel type is abstract (a pixel
may itself be a tuple of channel values). -/
abbrev Image (α : Type) : Type := List (List α)

/-- One patch of the non-overlapping grid: rows `[i*ph, (i+1)*ph)` and columns
`[j*pw, (j+1)*pw)` of the image, as sliced by `tf.image.extract_patches` with
equal sizes and strides (dataset_utils.py lines 131-135). -/
def cropPatch {α : Type} (ph pw i j : Nat) (img : Image α) : Image α :=
  ((img.drop (i * ph)).take ph).map (fun r => (r.drop (j * pw)).take pw)

/-- `extract_patches` (dataset_utils.py lines 128-139): from a single image of
resolution `res` extract 12 patches in a fixed 3 by 4 grid, row-major, each
patch of shape `(res.1 / 3, res.2 / 4)`.  This model is faithful on the
resolutions where the patch sides `res.1 / 3` and `res.2 / 4` are positive;
for smaller resolutions the TensorFlow op rejects the zero sizes and strides,
and every concrete instance below stays in the faithful region. -/
def extract_patches {α : Type} (res : Nat × Nat) (img : Image α) : List (Image α) :=
  (List.range 3).flatMap (fun i =>
    (List.range 4).map (fun j => cropPatch (res.1 / 3) (res.2 / 4) i j img))

/-- `tf.concat(row, axis=1)` (dataset_utils.py line 149): concatenate a list
of images column-wise, pairing up rows. -/
def concatCols {α : Type} (imgs : List (Image α)) : Image α :=
  match imgs with
  | [] => []
  | a :: rest => rest.foldl (fun acc b => List.zipWith (fun r s => r ++ s) acc b) a

/-- `reconstruct_image` (dataset_utils.py lines 142-152): for each grid row
`i < patch_size.1` collect the patches at the hard-coded index `i * 4 + j` for
`j < patch_size.2`, concatenate them column-wise, then concatenate the rows
(`tf.concat(..., axis=0)`).  An out-of-range patch index (an IndexError in the
source) is modelled as `none`. -/
def reconstruct_image {α : Type} (image_patches : List (Image α))
    (patch_size : Nat × Nat) : Option (Image α) :=
  (((List.range patch_size.1).mapM (fun i =>
      ((List.range patch_size.2).mapM
        (fun j => image_patches[i * 4 + j]?)).map concatCols)).map List.flatten)

/-- Modelled from the spec: the source has no grid-parametric tiler (its
`extract_patches` hard-codes the 3 by 4 grid), so the spec sentence "splits
one decoded image into an R x C grid of equal, non-overlapping patches, in
row-major order" is modelled here for comparison with the source functions. -/
def tile_spec {α : Type} (R C : Nat) (img : Image α) : List (Image α) :=
  let ph := img.length / R
  let pw := (img.headD []).length / C
  (List.range R).flatMap (fun i =>
    (List.range C).map (fun j => cropPatch ph pw i j img))

/-- `extract_patches_from_dataset` (dataset_utils.py lines 109-125): unzip the
dataset of pairs, extract patches from each component, un-batch (`flat_map`),
and zip the two streams back together. -/
def extract_patches_from_dataset {α : Type} (res : Nat × Nat)
    (dataset : List (Image α × Image α)) : List (Image α × Image α) :=
  let datasetX := ((dataset.map (fun p => p.1)).map (extract_patches res)).flatten
  let datasetY := ((dataset.map (fun p => p.2)).map (extract_patches res)).flatten
  datasetX.zip datasetY

/-- `tf.image.flip_left_right`: reverse every row. -/
def flip_left_right {α : Type} (img : Image α) : Image α := img.map List.reverse

/-- `tf.image.flip_up_down`: reverse the order of the rows. -/
def flip_up_down {α : Type} (img : Image α) : Image α := img.reverse

/-- `_random_horizontal_flip` (dataset_utils.py lines 72-77): one uniform draw
`u` per pair; both images are flipped left-right when `u > 0.5`, both are left
unchanged otherwise. -/
def random_horizontal_flip {α : Type} (u : ℚ) (image_blur image_sharp : Image α) :
    Image α × Image α :=
  (if 1 / 2 < u then flip_left_right image_blur else image_blur,
   if 1 / 2 < u then flip_left_right image_sharp else image_sharp)

/-- `_random_vertical_flip` (dataset_utils.py lines 79-84): one uniform draw
`u` per pair; both images are flipped up-down when `u > 0.5`. -/
def random_vertical_flip {α : Type} (u : ℚ) (image_blur image_sharp : Image α) :
    Image α × Image α :=
  (if 1 / 2 < u then flip_up_down image_blur else image_blur,
   if 1 / 2 < u then flip_up_down image_sharp else image_sharp)

/-- The augmentation applied to the training subset (dataset_utils.py lines
87-88): a horizontal-flip decision followed by a vertical-flip decision. -/
def augment_pair {α : Type} (u1 u2 : ℚ) (p : Image α × Image α) :
    Image α × Image α :=
  let q := random_horizontal_flip u1 p.1 p.2
  random_vertical_flip u2 q.1 q.2

/-- Modelled from the spec: the seeded pseudo-random stream behind
`tf.data.Dataset.shuffle` (its implementation is not part of the repository);
a linear congruential step advancing the generator state. -/
def lcg (x : Nat) : Nat := (x * 1103515245 + 12345) % 2147483648

/-- Modelled from the spec: the buffered shuffle behind
`tf.data.Dataset.shuffle(buffer_size, seed)` (dataset_utils.py line 64): a
buffer is kept; at each step one buffered element, chosen by the seeded
stream, is emitted and replaced by the next incoming element.  The first
argument is the generator state, the second the remaining-output fuel. -/
def shuffleAux {α : Type} : Nat → Nat → List α → List α → List α
  | _, 0, _, _ => []
  | _, _ + 1, [], [] => []
  | s, f + 1, [], y :: ys => y :: shuffleAux (lcg s) f [] ys
  | s, f + 1, b :: bs, rest =>
    let buffer := b :: bs
    let k := s % buffer.length
    let x := buffer.get ⟨k, Nat.mod_lt s (Nat.succ_pos bs.length)⟩
    let rem := buffer.take k ++ buffer.drop (k + 1)
    match rest with
    | [] => x :: shuffleAux (lcg s) f rem []
    | y :: ys => x :: shuffleAux (lcg s) f (rem ++ [y]) ys

/-- The whole buffered shuffle of a sequence: fill the buffer with the first
`buf` elements, then sample. -/
def shuffle_buffered {α : Type} (buf seed : Nat) (xs : List α) : List α :=
  shuffleAux seed xs.length (xs.take buf) (xs.drop buf)

/-- The shuffle op with its `reshuffle_each_iteration` flag (dataset_utils.py
lines 64 and 91-92): when the flag is set a fresh seed-derived order is drawn
for each epoch (iteration); when it is clear the same seeded order is replayed
on every iteration, independent of the epoch. -/
def dataset_shuffle {α : Type} (reshuffle : Bool) (buf seed epoch : Nat)
    (xs : List α) : List α :=
  if reshuffle then shuffle_buffered buf (seed + epoch + 1) xs
  else shuffle_buffered buf seed xs

/-- The Splitter (dataset_utils.py lines 63-66): shuffle the combined corpus
once with `buffer_size=50`, `reshuffle_each_iteration=False`, then
`skip(val_size)` for the training subset and `take(val_size)` for the
validation subset.  The `epoch` argument records at which iteration the
(epoch-independent, since the flag is `False`) shuffled order is observed. -/
def trainval_split {α : Type} (seed val_size : Nat) (corpus : List α)
    (epoch : Nat) : List α × List α :=
  let shuffled := dataset_shuffle false 50 seed epoch corpus
  (shuffled.drop val_size, shuffled.take val_size)

/-- The Splitter acting on corpus indices `0, ..., n-1`. -/
def splitter (seed val_size n : Nat) : List Nat × List Nat :=
  trainval_split seed val_size (List.range n) 0

/-- The training stream of one epoch (dataset_utils.py lines 69, 87-88, 91):
the cached training subset (cached before any augmentation), mapped through
the paired flips with that epoch's draws, then reshuffled with
`reshuffle_each_iteration=True`.  `draws e i` are the two uniform draws for
pair `i` during epoch `e`. -/
def train_epoch_stream {α : Type} (seed val_size : Nat)
    (corpus : List (Image α × Image α)) (draws : Nat → Nat → ℚ × ℚ)
    (e : Nat) : List (Image α × Image α) :=
  let cached := (trainval_split seed val_size corpus e).1
  dataset_shuffle true 50 seed e
    (cached.mapIdx (fun i p => augment_pair (draws e i).1 (draws e i).2 p))

/-- `Dataset.batch(batch_size)` (dataset_utils.py line 95), by fuel: split the
sequence into consecutive groups of `b` elements; the final group may be
smaller (`drop_remainder` is left at its default `False`). -/
def batch_aux {α : Type} : Nat → Nat → List α → List (List α)
  | _, _, [] => []
  | 0, _, xs => [xs]
  | f + 1, b, xs => xs.take b :: batch_aux f b (xs.drop b)

/-- The batched dataset. -/
def dataset_batch {α : Type} (b : Nat) (xs : List α) : List (List α) :=
  batch_aux xs.length b xs

/-- `steps_train = train_size // BATCH_SIZE` (cnn_deblur_reds.py line 122):
the consumer's steps-per-epoch formula. -/
def steps_train (train_size batch_size : Nat) : Nat := train_size / batch_size

/-- Identifiers are byte strings, modelled as lists of byte values; `gsRoot`
is the constant prefix of a bucket path (the bytes of the five characters of
the gs scheme). -/
def gsRoot : List Nat := [103, 115, 58, 47, 47]

/-- `os.path.join('gs://{bucket}', f.name)` (dataset_utils.py lines 25-26):
the path of one listed blob; `47` is the path separator byte. -/
def gcs_path (bucket name : List Nat) : List Nat :=
  (gsRoot ++ bucket ++ [47]) ++ name

/-- The Shard Lister (dataset_utils.py lines 25-32): map each blob returned by
`bucket.list_blobs(prefix=...)` to its path, in the order the store returned
them — the source applies no sort. -/
def list_shards (bucket : List Nat) (blobs : List (List Nat)) :
    List (List Nat) :=
  blobs.map (gcs_path bucket)

/-- The error channel available to the loading step; the source never uses
it. -/
inductive LoadError : Type
  | emptyListing : LoadError

/-- `tf.data.TFRecordDataset(filenames)` (dataset_utils.py lines 27-28): the
records of all listed shards, concatenated. -/
def tfrecord_dataset {ρ : Type} (shards : List (List ρ)) : List ρ :=
  shards.flatten

/-- The loading step with an explicit error channel: the source builds the
dataset unconditionally, with no emptiness check on the shard listing. -/
def load_records {ρ : Type} (shards : List (List ρ)) :
    Except LoadError (List ρ) :=
  Except.ok (tfrecord_dataset shards)

/-- Iterated generator steps. -/
def lcg_iter : Nat → Nat → Nat
  | 0, s => s
  | n + 1, s => lcg (lcg_iter n s)

/-- Modelled from the spec: the single shared `np.random.RandomState(42)` of
`preproc_cifar` (preproc_cifar.py line 50); `shared_draw seed i` is the i-th
value drawn from the one shared stream, whichever thread performs the draw. -/
def shared_draw (seed i : Nat) : Nat := lcg_iter (i + 1) seed

/-- Which draws of the shared stream a worker receives under a given thread
interleaving: `schedule` lists, in global order, which worker (`true` = the
train-build task, `false` = the test-build task) performs each draw. -/
def draws_for (worker : Bool) (schedule : List Bool) : List Nat :=
  ((List.range schedule.length).zip schedule).filterMap
    (fun p => if p.2 = worker then some p.1 else none)

/-- `gauss_blur` (preproc_cifar.py lines 21-26), abstracted: the Gaussian
filter itself is numerical, but all that matters here is that the blurred
image is a function of the source image and the drawn standard deviation. -/
def gauss_blur (sigma : Nat) (img : Nat) : Nat × Nat := (img, sigma)

/-- `preproc_subset` (preproc_cifar.py lines 9-35): blur each image of the
target with the successive standard deviations the worker obtains from the
random state it was handed. -/
def preproc_subset (sigmas : List Nat) (target : List Nat) :
    List (Nat × Nat) :=
  List.zipWith (fun img s => gauss_blur s img) target sigmas

/-- `preproc_cifar` (preproc_cifar.py lines 49-68): both workers are handed
the same shared stream seeded with `seed`; which draws each worker sees is
decided by the thread interleaving `schedule`.  Results are collected back by
future identity (train result to trainX, test result to testX). -/
def preproc_run (seed : Nat) (schedule : List Bool)
    (train_set test_set : List Nat) :
    List (Nat × Nat) × List (Nat × Nat) :=
  (preproc_subset ((draws_for true schedule).map (shared_draw seed)) train_set,
   preproc_subset ((draws_for false schedule).map (shared_draw seed)) test_set)

theorem extract_patches_eq {α : Type} (res : Nat × Nat) (img : Image α) :
    extract_patches res img =
      [cropPatch (res.1 / 3) (res.2 / 4) 0 0 img, cropPatch (res.1 / 3) (res.2 / 4) 0 1 img,
       cropPatch (res.1 / 3) (res.2 / 4) 0 2 img, cropPatch (res.1 / 3) (res.2 / 4) 0 3 img,
       cropPatch (res.1 / 3) (res.2 / 4) 1 0 img, cropPatch (res.1 / 3) (res.2 / 4) 1 1 img,
       cropPatch (res.1 / 3) (res.2 / 4) 1 2 img, cropPatch (res.1 / 3) (res.2 / 4) 1 3 img,
       cropPatch (res.1 / 3) (res.2 / 4) 2 0 img, cropPatch (res.1 / 3) (res.2 / 4) 2 1 img,
       cropPatch (res.1 / 3) (res.2 / 4) 2 2 img, cropPatch (res.1 / 3) (res.2 / 4) 2 3 img] := rfl

theorem reconstruct_twelve {α : Type} (p0 p1 p2 p3 p4 p5 p6 p7 p8 p9 p10 p11 : Image α) :
    reconstruct_image [p0, p1, p2, p3, p4, p5, p6, p7, p8, p9, p10, p11] (3, 4) =
      some (concatCols [p0, p1, p2, p3] ++
        (concatCols [p4, p5, p6, p7] ++ (concatCols [p8, p9, p10, p11] ++ []))) := rfl

theorem zipWith_append_map {α β : Type} (l : List α) (f g : α → List β) :
    List.zipWith (fun r s => r ++ s) (l.map f) (l.map g) =
      l.map (fun x => f x ++ g x) := by
  induction l with
  | nil => rfl
  | cons x xs ih => simp [ih]

theorem chunk_four {α : Type} (r : List α) (pw : Nat) (h : r.length = 4 * pw) :
    (((r.drop (0 * pw)).take pw ++ (r.drop (1 * pw)).take pw) ++
      (r.drop (2 * pw)).take pw) ++ (r.drop (3 * pw)).take pw = r := by
  simp only [Nat.zero_mul, Nat.one_mul, List.drop_zero]
  rw [← List.take_add]
  have h2 : pw + pw = 2 * pw := by omega
  rw [h2, ← List.take_add]
  have h3 : 2 * pw + pw = 3 * pw := by omega
  rw [h3, ← List.take_add]
  have h4 : 3 * pw + pw = 4 * pw := by omega
  rw [h4, ← h, List.take_length]

theorem chunk_three {α : Type} (l : List α) (ph : Nat) (h : l.length = 3 * ph) :
    (l.drop (0 * ph)).take ph ++ ((l.drop (1 * ph)).take ph ++
      ((l.drop (2 * ph)).take ph ++ [])) = l := by
  simp only [Nat.zero_mul, Nat.one_mul, List.drop_zero, List.append_nil]
  rw [← List.append_assoc, ← List.take_add]
  have h2 : ph + ph = 2 * ph := by omega
  rw [h2, ← List.take_add]
  have h3 : 2 * ph + ph = 3 * ph := by omega
  rw [h3, ← h, List.take_length]

theorem concatCols_crops {α : Type} (img : Image α) (W pw ph i : Nat)
    (hW : ∀ r ∈ img, r.length = W) (hw : W = 4 * pw) :
    concatCols [cropPatch ph pw i 0 img, cropPatch ph pw i 1 img,
      cropPatch ph pw i 2 img, cropPatch ph pw i 3 img] =
      (img.drop (i * ph)).take ph := by
  have hmem : ∀ r ∈ (img.drop (i * ph)).take ph, r.length = W := fun r hr =>
    hW r (List.drop_subset _ _ (List.take_subset _ _ hr))
  simp only [concatCols, cropPatch, List.foldl]
  rw [zipWith_append_map, zipWith_append_map, zipWith_append_map]
  have hcongr : ∀ r ∈ (img.drop (i * ph)).take ph,
      (((r.drop (0 * pw)).take pw ++ (r.drop (1 * pw)).take pw) ++
        (r.drop (2 * pw)).take pw) ++ (r.drop (3 * pw)).take pw = id r := by
    intro r hr
    exact chunk_four r pw (by rw [hmem r hr, hw])
  rw [List.map_congr_left hcongr, List.map_id]

theorem mem_extract_patches {α : Type} {p img : Image α} {res : Nat × Nat}
    (hp : p ∈ extract_patches res img) :
    ∃ i j, i < 3 ∧ j < 4 ∧ p = cropPatch (res.1 / 3) (res.2 / 4) i j img := by
  simp only [extract_patches, List.mem_flatMap, List.mem_map, List.mem_range] at hp
  obtain ⟨i, hi, j, hj, rfl⟩ := hp
  exact ⟨i, j, hi, hj, rfl⟩

theorem cropPatch_shape {α : Type} (img : Image α) (H W ph pw i j : Nat)
    (hH : img.length = H) (hW : ∀ r ∈ img, r.length = W)
    (hph : H = 3 * ph) (hpw : W = 4 * pw) (hi : i < 3) (hj : j < 4) :
    (cropPatch ph pw i j img).length = ph ∧
      ∀ r ∈ cropPatch ph pw i j img, r.length = pw := by
  have hip : i * ph ≤ 2 * ph := Nat.mul_le_mul_right ph (by omega)
  have hjp : j * pw ≤ 3 * pw := Nat.mul_le_mul_right pw (by omega)
  constructor
  · simp only [cropPatch, List.length_map, List.length_take, List.length_drop, hH]
    omega
  · intro r hr
    simp only [cropPatch, List.mem_map] at hr
    obtain ⟨r0, hr0, rfl⟩ := hr
    have hr0m : r0 ∈ img := List.drop_subset _ _ (List.take_subset _ _ hr0)
    have hlen := hW r0 hr0m
    simp only [List.length_take, List.length_drop, hlen]
    omega

theorem length_extract_patches {α : Type} (res : Nat × Nat) (img : Image α) :
    (extract_patches res img).length = 12 := rfl

theorem length_flatten_patches {α : Type} (res : Nat × Nat) :
    ∀ (xs : List (Image α)),
      ((xs.map (extract_patches res)).flatten).length = 12 * xs.length := by
  intro xs
  induction xs with
  | nil => rfl
  | cons x l ih =>
    simp only [List.map_cons, List.flatten_cons, List.length_append, ih,
      length_extract_patches, List.length_cons]
    omega

theorem cons_extract_perm {α : Type} (l : List α) (k : Nat) (h : k < l.length) :
    (l.get ⟨k, h⟩ :: (l.take k ++ l.drop (k + 1))).Perm l := by
  conv_rhs => rw [← List.take_append_drop k l, List.drop_eq_getElem_cons h]
  exact List.perm_middle.symm

theorem cons_extract_append_perm {α : Type} (l : List α) (k : Nat)
    (h : k < l.length) (t : List α) :
    (l.get ⟨k, h⟩ :: ((l.take k ++ l.drop (k + 1)) ++ t)).Perm (l ++ t) := by
  have := (cons_extract_perm l k h).append_right t
  simpa using this

theorem shuffleAux_perm {α : Type} :
    ∀ (f s : Nat) (buffer rest : List α), buffer.length + rest.length = f →
      (shuffleAux s f buffer rest).Perm (buffer ++ rest) := by
  intro f
  induction f with
  | zero =>
    intro s buffer rest hlen
    have hb : buffer = [] := List.length_eq_zero.mp (by omega)
    have hr : rest = [] := List.length_eq_zero.mp (by omega)
    subst hb; subst hr
    simp [shuffleAux]
  | succ f ih =>
    intro s buffer rest hlen
    cases buffer with
    | nil =>
      cases rest with
      | nil => simp [shuffleAux]
      | cons y ys =>
        simp only [shuffleAux, List.nil_append]
        have hy := ih (lcg s) [] ys (by simp at hlen ⊢; omega)
        simpa using hy.cons y
    | cons b bs =>
      have hk : s % (b :: bs).length < (b :: bs).length :=
        Nat.mod_lt s (Nat.succ_pos bs.length)
      have hk2 : s % (bs.length + 1) < bs.length + 1 :=
        Nat.mod_lt s (Nat.succ_pos bs.length)
      cases rest with
      | nil =>
        simp only [shuffleAux]
        have harg : ((b :: bs).take (s % (b :: bs).length) ++
            (b :: bs).drop (s % (b :: bs).length + 1)).length +
            ([] : List α).length = f := by
          simp only [List.length_append, List.length_take, List.length_drop,
            List.length_cons, List.length_nil] at hlen ⊢
          omega
        have hy := ih (lcg s) _ [] harg
        exact (hy.cons _).trans (cons_extract_append_perm (b :: bs) _ hk [])
      | cons y ys =>
        simp only [shuffleAux]
        have harg : ((((b :: bs).take (s % (b :: bs).length) ++
            (b :: bs).drop (s % (b :: bs).length + 1)) ++ [y]).length +
            ys.length = f) := by
          simp only [List.length_append, List.length_take, List.length_drop,
            List.length_cons, List.length_nil] at hlen ⊢
          omega
        have hy := ih (lcg s) (((b :: bs).take (s % (b :: bs).length) ++
            (b :: bs).drop (s % (b :: bs).length + 1)) ++ [y]) ys harg
        have hy2 : (shuffleAux (lcg s) f (((b :: bs).take (s % (b :: bs).length) ++
            (b :: bs).drop (s % (b :: bs).length + 1)) ++ [y]) ys).Perm
            (((b :: bs).take (s % (b :: bs).length) ++
              (b :: bs).drop (s % (b :: bs).length + 1)) ++ (y :: ys)) := by
          simpa using hy
        exact (hy2.cons _).trans (cons_extract_append_perm (b :: bs) _ hk (y :: ys))

theorem shuffle_buffered_perm {α : Type} (buf seed : Nat) (xs : List α) :
    (shuffle_buffered buf seed xs).Perm xs := by
  have h : (xs.take buf).length + (xs.drop buf).length = xs.length := by
    simp only [List.length_take, List.length_drop]
    omega
  have := shuffleAux_perm xs.length seed (xs.take buf) (xs.drop buf) h
  simpa [List.take_append_drop] using this

theorem splitter_lengths (s v m : Nat) :
    (splitter s v m).1.length = m - v ∧ (splitter s v m).2.length = min v m := by
  have hperm := shuffle_buffered_perm 50 s (List.range m)
  have hlen : (shuffle_buffered 50 s (List.range m)).length = m := by
    rw [hperm.length_eq, List.length_range]
  constructor
  · show ((shuffle_buffered 50 s (List.range m)).drop v).length = m - v
    rw [List.length_drop, hlen]
  · show ((shuffle_buffered 50 s (List.range m)).take v).length = min v m
    rw [List.length_take, hlen]

theorem splitter_disjoint (s v m : Nat) :
    List.Disjoint (splitter s v m).1 (splitter s v m).2 := by
  have hperm := shuffle_buffered_perm 50 s (List.range m)
  have hnodup : (shuffle_buffered 50 s (List.range m)).Nodup :=
    hperm.nodup_iff.mpr (List.nodup_range m)
  exact List.disjoint_symm (List.disjoint_take_drop hnodup le_rfl)

theorem batch_aux_ne_nil {α : Type} (f b : Nat) (x : α) (l : List α) :
    batch_aux f b (x :: l) ≠ [] := by
  cases f <;> simp [batch_aux]

theorem batch_aux_flatten {α : Type} :
    ∀ (f b : Nat) (xs : List α), 0 < b → xs.length ≤ f →
      (batch_aux f b xs).flatten = xs := by
  intro f
  induction f with
  | zero =>
    intro b xs _ hlen
    have hx : xs = [] := List.length_eq_zero.mp (by omega)
    subst hx
    rfl
  | succ f ih =>
    intro b xs hb hlen
    cases xs with
    | nil => rfl
    | cons x l =>
      simp only [batch_aux, List.flatten_cons]
      rw [ih b _ hb (by simp only [List.length_drop, List.length_cons] at hlen ⊢; omega)]
      exact List.take_append_drop b (x :: l)

theorem batch_aux_sizes {α : Type} :
    ∀ (f b : Nat) (xs : List α), 0 < b → xs.length ≤ f →
      ∀ c ∈ (batch_aux f b xs).dropLast, c.length = b := by
  intro f
  induction f with
  | zero =>
    intro b xs _ hlen
    have hx : xs = [] := List.length_eq_zero.mp (by omega)
    subst hx
    intro c hc
    simp [batch_aux] at hc
  | succ f ih =>
    intro b xs hb hlen
    cases xs with
    | nil => intro c hc; simp [batch_aux] at hc
    | cons x l =>
      simp only [batch_aux]
      cases hd : (x :: l).drop b with
      | nil =>
        intro c hc
        simp [batch_aux] at hc
      | cons z zs =>
        rw [List.dropLast_cons_of_ne_nil (batch_aux_ne_nil f b z zs)]
        intro c hc
        rcases List.mem_cons.mp hc with rfl | hc2
        · have hblt : b < l.length + 1 := by
            have := congrArg List.length hd
            simp only [List.length_drop, List.length_cons] at this
            omega
          simp only [List.length_take, List.length_cons]
          omega
        · have harg : (z :: zs).length ≤ f := by
            have := congrArg List.length hd
            simp only [List.length_drop, List.length_cons] at this hlen ⊢
            omega
          exact ih b (z :: zs) hb harg c hc2

/-- Claim C1 (counterexample): the round-trip law fails for a grid shape other
than the hard-coded one.  Tiling a 2 by 2 image into a 2 by 2 grid of patches
(per the spec's general tiler) and reconstructing with `patch_size = (2, 2)`
does not recover the image: `reconstruct_image` indexes patch `i * 4 + j`, so
for the second grid row it reads index 4, which is out of range for the 4
patches. -/
theorem reconstruct_fails_for_two_by_two_grid :
    reconstruct_image (tile_spec 2 2 ([[0, 1], [2, 3]] : Image Nat)) (2, 2) ≠
      some [[0, 1], [2, 3]] := by decide

/-- Claim C1 (corrected): the round-trip law holds exactly for the grid shape
the code actually implements.  For every image whose height is divisible by 3
and width by 4, reconstructing the 12 patches produced by `extract_patches`
(fixed 3 by 4 grid) with `patch_size = (3, 4)` yields the image bit-for-bit —
pure slicing and concatenation, no resampling. -/
theorem tiling_roundtrip_fixed_grid {α : Type} (img : Image α) (H W : Nat)
    (hH : img.length = H) (hW : ∀ r ∈ img, r.length = W)
    (h3 : H % 3 = 0) (h4 : W % 4 = 0) :
    reconstruct_image (extract_patches (H, W) img) (3, 4) = some img := by
  rw [extract_patches_eq, reconstruct_twelve]
  dsimp only
  have hpw : W = 4 * (W / 4) := by omega
  rw [concatCols_crops img W (W / 4) (H / 3) 0 hW hpw,
      concatCols_crops img W (W / 4) (H / 3) 1 hW hpw,
      concatCols_crops img W (W / 4) (H / 3) 2 hW hpw]
  rw [chunk_three img (H / 3) (by omega)]

/-- Witness for the corrected C1 round trip at a concrete 3 by 4 image. -/
theorem tiling_roundtrip_fixed_grid_witness :
    reconstruct_image (extract_patches (3, 4)
      ([[1, 2, 3, 4], [5, 6, 7, 8], [9, 10, 11, 12]] : Image Nat)) (3, 4) =
      some [[1, 2, 3, 4], [5, 6, 7, 8], [9, 10, 11, 12]] :=
  tiling_roundtrip_fixed_grid _ 3 4 rfl (by decide) (by decide) (by decide)

/-- Claim C2 (confirmed): each augmentation transform draws one decision per
pair and applies the same outcome to both images: either both images of the
pair are flipped along the same axis (when the draw exceeds 0.5) or both are
left unchanged. -/
theorem augmentation_preserves_pairing {α : Type} (u : ℚ) (blur sharp : Image α) :
    (random_horizontal_flip u blur sharp =
        (flip_left_right blur, flip_left_right sharp) ∨
      random_horizontal_flip u blur sharp = (blur, sharp)) ∧
    (random_vertical_flip u blur sharp =
        (flip_up_down blur, flip_up_down sharp) ∨
      random_vertical_flip u blur sharp = (blur, sharp)) ∧
    random_horizontal_flip u blur sharp =
      (if 1 / 2 < u then (flip_left_right blur, flip_left_right sharp)
        else (blur, sharp)) ∧
    random_vertical_flip u blur sharp =
      (if 1 / 2 < u then (flip_up_down blur, flip_up_down sharp)
        else (blur, sharp)) := by
  by_cases h : 1 / 2 < u
  · refine ⟨Or.inl ?_, Or.inl ?_, ?_, ?_⟩ <;>
      simp only [random_horizontal_flip, random_vertical_flip, if_pos h]
  · refine ⟨Or.inr ?_, Or.inr ?_, ?_, ?_⟩ <;>
      simp only [random_horizontal_flip, random_vertical_flip, if_neg h]

/-- Claim C3 (confirmed): the Splitter is a pure function of the seed and the
corpus listing — two runs with identical seed and identical corpus produce
identical Train and Validation index sequences. -/
theorem splitter_deterministic (seed1 seed2 n1 n2 val_size : Nat)
    (hseed : seed1 = seed2) (hcorpus : n1 = n2) :
    splitter seed1 val_size n1 = splitter seed2 val_size n2 := by
  subst hseed
  subst hcorpus
  rfl

/-- Witness for C3 at the spec's scenario: seed 42, corpus 1000, val 125. -/
theorem splitter_deterministic_witness :
    splitter 42 125 1000 = splitter 42 125 1000 :=
  splitter_deterministic 42 42 1000 1000 125 rfl rfl

/-- Claim C4 (confirmed): Train and Validation are disjoint and partition the
corpus — the shuffled corpus is a permutation of the indices, Validation is
its first `val_size` elements and Train the rest; for corpus 1000 and
validation size 125 the sizes are 875 and 125. -/
theorem split_disjoint_partition (seed n val_size : Nat) :
    List.Disjoint (splitter seed val_size n).1 (splitter seed val_size n).2 ∧
    (splitter seed val_size n).1.length + (splitter seed val_size n).2.length = n ∧
    (splitter 42 125 1000).1.length = 875 ∧
    (splitter 42 125 1000).2.length = 125 := by
  refine ⟨splitter_disjoint seed val_size n, ?_, ?_, ?_⟩
  · obtain ⟨h1, h2⟩ := splitter_lengths seed val_size n
    omega
  · obtain ⟨h1, h2⟩ := splitter_lengths 42 125 1000
    omega
  · obtain ⟨h1, h2⟩ := splitter_lengths 42 125 1000
    omega

/-- Claim C5 (counterexample): the Patch Tiler does not honour a configured
grid shape.  A 6 by 8 image satisfies the claim's premise for grid (2, 2)
(6 % 2 = 0, 8 % 2 = 0), and the tiler runs on it with positive patch sides
(sizes and strides [1, 2, 2, 1]); yet it produces 12 patches, not 2 * 2 = 4,
the first patch has height 2 (= 6 / 3), not 3 (= 6 / 2), and a corpus of 8
such images yields 96 patch pairs, not 32. -/
theorem patch_count_is_twelve_not_grid :
    (extract_patches (6, 8)
      (List.replicate 6 (List.replicate 8 (0 : Nat)))).length = 12 ∧
    (extract_patches (6, 8)
      (List.replicate 6 (List.replicate 8 (0 : Nat)))).length ≠ 2 * 2 ∧
    ((extract_patches (6, 8)
      (List.replicate 6 (List.replicate 8 (0 : Nat)))).headD []).length = 2 ∧
    ((extract_patches (6, 8)
      (List.replicate 6 (List.replicate 8 (0 : Nat)))).headD []).length ≠ 6 / 2 ∧
    (extract_patches_from_dataset (6, 8)
      (List.replicate 8 ((List.replicate 6 (List.replicate 8 (0 : Nat))),
        (List.replicate 6 (List.replicate 8 (0 : Nat)))))).length = 96 ∧
    (extract_patches_from_dataset (6, 8)
      (List.replicate 8 ((List.replicate 6 (List.replicate 8 (0 : Nat))),
        (List.replicate 6 (List.replicate 8 (0 : Nat)))))).length ≠ 32 := by decide

/-- Claim C5 (corrected): for every image whose height is divisible by 3 and
width by 4, the tiler outputs exactly 12 patches (the fixed 3 by 4 grid) in
row-major order, each of shape `(H / 3, W / 4)`; a corpus of 8 images yields
96 patch pairs. -/
theorem patch_tiler_fixed_grid_output {α : Type} (img : Image α) (H W : Nat)
    (hH : img.length = H) (hW : ∀ r ∈ img, r.length = W)
    (h3 : H % 3 = 0) (h4 : W % 4 = 0) :
    (extract_patches (H, W) img).length = 12 ∧
    (∀ p ∈ extract_patches (H, W) img,
      p.length = H / 3 ∧ ∀ r ∈ p, r.length = W / 4) ∧
    ∀ ds : List (Image α × Image α), ds.length = 8 →
      (extract_patches_from_dataset (H, W) ds).length = 96 := by
  refine ⟨rfl, ?_, ?_⟩
  · intro p hp
    obtain ⟨i, j, hi, hj, rfl⟩ := mem_extract_patches hp
    exact cropPatch_shape img H W (H / 3) (W / 4) i j hH hW (by omega) (by omega) hi hj
  · intro ds hds
    simp only [extract_patches_from_dataset, List.length_zip,
      length_flatten_patches, List.length_map, hds]
    omega

/-- Witness for the corrected C5 at a concrete 3 by 4 image and a corpus of 8
identical pairs. -/
theorem patch_tiler_fixed_grid_output_witness :
    (extract_patches (3, 4)
      ([[1, 1, 1, 1], [2, 2, 2, 2], [3, 3, 3, 3]] : Image Nat)).length = 12 ∧
    (extract_patches_from_dataset (3, 4)
      (List.replicate 8 (([[1, 1, 1, 1], [2, 2, 2, 2], [3, 3, 3, 3]] : Image Nat),
        ([[1, 1, 1, 1], [2, 2, 2, 2], [3, 3, 3, 3]] : Image Nat)))).length = 96 :=
  ⟨(patch_tiler_fixed_grid_output
      ([[1, 1, 1, 1], [2, 2, 2, 2], [3, 3, 3, 3]] : Image Nat) 3 4 rfl
      (by decide) (by decide) (by decide)).1,
   (patch_tiler_fixed_grid_output
      ([[1, 1, 1, 1], [2, 2, 2, 2], [3, 3, 3, 3]] : Image Nat) 3 4 rfl
      (by decide) (by decide) (by decide)).2.2 _ (by decide)⟩

/-- Claim C6 (confirmed): batching groups the subset into consecutive batches
of exactly `batch_size` elements except an allowed final partial batch
(`drop_remainder` defaults to false, nothing is lost in the batched stream),
and the consumer's step count is the floor `steps_train = size / batch`; at
the spec scenario, 875 examples with batch 16 give 54 steps, leaving 11
examples in the unread final partial batch. -/
theorem batching_steps_contract {α : Type} (b : Nat) (xs : List α) (hb : 0 < b) :
    (∀ c ∈ (dataset_batch b xs).dropLast, c.length = b) ∧
    (dataset_batch b xs).flatten = xs ∧
    steps_train xs.length b = xs.length / b ∧
    steps_train 875 16 = 54 ∧
    875 - steps_train 875 16 * 16 = 11 :=
  ⟨batch_aux_sizes xs.length b xs hb le_rfl,
   batch_aux_flatten xs.length b xs hb le_rfl,
   rfl, by decide, by decide⟩

/-- Witness for C6 at batch size 16 and a subset of 875 elements. -/
theorem batching_steps_contract_witness :
    (dataset_batch 16 (List.range 875)).flatten = List.range 875 ∧
    steps_train 875 16 = 54 :=
  ⟨(batching_steps_contract 16 (List.range 875) (by decide)).2.1,
   (batching_steps_contract 16 (List.range 875) (by decide)).2.2.2.1⟩

/-- Claim C7 (counterexample): the Shard Lister does not make the listing
order deterministic: two listings holding the same blob names in different
native orders (they are permutations of each other) are handed downstream as
different sequences — the downstream ordering depends on the store's native
listing order. -/
theorem lister_output_depends_on_native_order :
    (([[98], [97]] : List (List Nat)).Perm [[97], [98]]) ∧
    list_shards [107] [[98], [97]] ≠ list_shards [107] [[97], [98]] := by decide

/-- Claim C7 (corrected): the Shard Lister applies no sort; it maps blob names
to paths preserving the store's native listing order, so the downstream
sequence depends on (and determines) the native order: equal downstream
sequences can only come from equal native listings. -/
theorem lister_reflects_native_order (bucket : List Nat)
    (blobs1 blobs2 : List (List Nat))
    (h : list_shards bucket blobs1 = list_shards bucket blobs2) :
    blobs1 = blobs2 := by
  have hinj : Function.Injective (gcs_path bucket) := fun x y hxy =>
    List.append_cancel_left hxy
  exact List.map_injective_iff.mpr hinj h

/-- Witness for the corrected C7 at a one-blob listing. -/
theorem lister_reflects_native_order_witness :
    ([[98]] : List (List Nat)) = [[98]] :=
  lister_reflects_native_order [107] [[98]] [[98]] rfl

/-- Claim C8 (counterexample): an empty shard listing is not surfaced as a
configuration error — the loader returns an (ok) empty dataset. -/
theorem empty_listing_yields_ok_empty :
    load_records ([] : List (List Nat)) = Except.ok [] ∧
    load_records ([] : List (List Nat)) ≠ Except.error LoadError.emptyListing :=
  ⟨rfl, fun h => nomatch h⟩

/-- Claim C8 (corrected): the pipeline never signals an error for any shard
listing; in particular an empty listing silently yields an empty dataset and
training would start on an empty stream. -/
theorem loader_never_errors (shards : List (List Nat)) (e : LoadError) :
    load_records shards ≠ Except.error e ∧
    load_records shards = Except.ok (tfrecord_dataset shards) :=
  ⟨(fun h => nomatch h), rfl⟩

/-- Claim C9 (confirmed): the split shuffle has `reshuffle_each_iteration =
False`, so Train/Validation membership observed at any epoch equals the
membership at epoch 0; and every epoch's training stream is rebuilt from the
same cached pre-augmentation subset by mapping the paired flips over it — the
augmented output is a fresh value, the cache itself is never replaced. -/
theorem split_membership_and_cache_stable {α : Type} (seed val_size : Nat)
    (corpus : List (Image α × Image α)) (draws : Nat → Nat → ℚ × ℚ) (e : Nat) :
    trainval_split seed val_size corpus e = trainval_split seed val_size corpus 0 ∧
    train_epoch_stream seed val_size corpus draws e =
      dataset_shuffle true 50 seed e
        (((trainval_split seed val_size corpus 0).1).mapIdx
          (fun i p => augment_pair (draws e i).1 (draws e i).2 p)) :=
  ⟨rfl, rfl⟩

/-- Claim C10 (code-bug evidence): both workers of `preproc_cifar` share the
single `np.random.RandomState(42)`; which standard deviations the train-build
worker obtains depends on the thread interleaving.  Two valid interleavings of
the same run configuration (seed 42, train subset of 2 images, test subset of
1 image — each worker performs the same number of draws in both) produce
different blurred train predictors, so outputs are not reproducible across
runs despite the fixed seed. -/
theorem shared_rng_schedule_dependent :
    (draws_for true [true, true, false]).length = 2 ∧
    (draws_for false [true, true, false]).length = 1 ∧
    (draws_for true [true, false, true]).length = 2 ∧
    (draws_for false [true, false, true]).length = 1 ∧
    (preproc_run 42 [true, true, false] [10, 20] [30]).1 ≠
      (preproc_run 42 [true, false, true] [10, 20] [30]).1 := by decide
